import Mathlib

/-! gogetdoc: resolving a builtin name to its documentation record.

A shallow embedding of `builtin.go`: the renderers `readFuncType`, `readField`
and `readInterfaceType`, the three matchers `getValueSpec`, `getTypeSpec` and
`getFuncDecl`, and the resolver `findBuiltinType`.

Conventions of the embedding.

* The syntax tree is the part of `go/ast` that `builtin.go` inspects.  A pointer
  or interface field that the code tests against `nil` is an `Option`; a pointer
  the code dereferences without a test (`t.Name`, `f.Name`, `f.Type`, the
  elements of `Names`) is always present, as it is in every tree built by
  `go/parser`.
* `*ast.FieldList` is `Option (List Field)`: `none` is the nil pointer and
  `some l` a field list whose `List` is `l`.
* `token.Pos` is a natural number, `0` being `token.NoPos`.
* `spec.(*ast.ValueSpec)` and `spec.(*ast.TypeSpec)` are type assertions that
  panic on a spec of another kind; the resolver therefore returns
  `Except Panic (Option Doc)`.
* The diagnostic `fmt.Printf` of the default case of `readField` writes to
  standard output and does not change the returned text; it is not modelled.
-/

namespace Gogetdoc

/-! ## Tokens (go/token) -/

/-- The tokens of `go/token` that can occur as the keyword of a general
declaration or as the operator of a binary expression. -/
inductive Token
  | ILLEGAL
  | ADD | SUB | MUL | QUO | REM
  | AND | OR | XOR | SHL | SHR | AND_NOT
  | LAND | LOR
  | EQL | LSS | GTR | NEQ | LEQ | GEQ
  | CONST | IMPORT | TYPE | VAR
deriving DecidableEq, Repr

/-- The text `Token.String()` returns, which is what `%s` prints for a token. -/
def Token.String : Token → String
  | .ILLEGAL => "ILLEGAL"
  | .ADD => "+"
  | .SUB => "-"
  | .MUL => "*"
  | .QUO => "/"
  | .REM => "%"
  | .AND => "&"
  | .OR => "|"
  | .XOR => "^"
  | .SHL => "<<"
  | .SHR => ">>"
  | .AND_NOT => "&^"
  | .LAND => "&&"
  | .LOR => "||"
  | .EQL => "=="
  | .LSS => "<"
  | .GTR => ">"
  | .NEQ => "!="
  | .LEQ => "<="
  | .GEQ => ">="
  | .CONST => "const"
  | .IMPORT => "import"
  | .TYPE => "type"
  | .VAR => "var"

/-! ## Syntax tree (go/ast) -/

/-- An `*ast.Ident`: its position and its name. -/
structure Ident where
  NamePos : Nat
  Name : String
deriving DecidableEq, Repr

/-- An `*ast.CommentGroup`, reduced to what `Text()` returns for it. -/
structure CommentGroup where
  Text : String
deriving DecidableEq, Repr

/-- The value of `ast.SEND`. -/
def SEND : Nat := 1

/-- The value of `ast.RECV`. -/
def RECV : Nat := 2

mutual
/-- An `ast.Expr`.  The constructors after `InterfaceType` are shapes that no
case of `readField` handles. -/
inductive Expr
  | Ident (id : Ident)
  | BasicLit (ValuePos : Nat) (Value : String)
  | BinaryExpr (X : Expr) (Op : Token) (Y : Expr)
  | FuncType (ft : FuncType)
  | ArrayType (Len : Option Expr) (Elt : Option Expr)
  | Ellipsis (Elt : Option Expr)
  | MapType (Key : Option Expr) (Value : Option Expr)
  | StarExpr (X : Option Expr)
  | ChanType (Dir : Nat) (Value : Option Expr)
  | InterfaceType (it : InterfaceType)
  | StructType (Fields : Option (List Field))
  | SelectorExpr (X : Expr) (Sel : Ident)
  | ParenExpr (X : Expr)
  | UnaryExpr (Op : Token) (X : Expr)
  | CallExpr (Fun : Expr) (Args : List Expr)
  | BadExpr
/-- An `*ast.Field`: the names it binds and its type. -/
inductive Field
  | mk (Names : List Ident) (Typ : Option Expr)
/-- An `*ast.FuncType`: parameter and result field lists. -/
inductive FuncType
  | mk (Params : Option (List Field)) (Results : Option (List Field))
/-- An `*ast.InterfaceType`: its method field list. -/
inductive InterfaceType
  | mk (Methods : Option (List Field))
end

/-- An `*ast.ValueSpec`, a member of a constant or variable declaration. -/
structure ValueSpec where
  Doc : Option CommentGroup
  Names : List Ident
  Typ : Option Expr
  Values : List Expr

/-- An `*ast.TypeSpec`; `Assign` is the position of `=`, `0` when there is none. -/
structure TypeSpec where
  Doc : Option CommentGroup
  Name : Ident
  Assign : Nat
  Typ : Option Expr

/-- An `*ast.ImportSpec`. -/
structure ImportSpec where
  Path : String

/-- An `ast.Spec`. -/
inductive Spec
  | ImportSpec (s : ImportSpec)
  | ValueSpec (v : ValueSpec)
  | TypeSpec (t : TypeSpec)

/-- An `*ast.GenDecl`. -/
structure GenDecl where
  Doc : Option CommentGroup
  Tok : Token
  Specs : List Spec

/-- An `*ast.FuncDecl` without its body. -/
structure FuncDecl where
  Doc : Option CommentGroup
  Recv : Option (List Field)
  Name : Ident
  Typ : FuncType

/-- An `ast.Decl`. -/
inductive Decl
  | BadDecl
  | GenDecl (d : GenDecl)
  | FuncDecl (d : FuncDecl)

/-- An `*ast.File`, reduced to its top-level declarations. -/
structure File where
  Decls : List Decl

/-- An `*ast.Package`.  `Files` lists the files in the order the resolver
visits them; `builtinPackage` admits the single file `builtin.go`. -/
structure Package where
  Files : List File

/-- A `*token.FileSet`, reduced to the text `fs.Position(pos).String()`. -/
structure FileSet where
  Position : Nat → String

set_option linter.dupNamespace false in
/-- Modelled from the spec: the record type `Doc`, declared outside
`builtin.go`; the fields are the ones `builtin.go` assigns. -/
structure Doc where
  Name : String
  Import : String
  Pkg : String
  Decl : String
  Doc : String
  Pos : String
deriving DecidableEq, Repr

/-- A run-time panic of the resolver. -/
inductive Panic
  | interfaceConversion
deriving DecidableEq, Repr

/-! ## Rendering -/

/-- Lines 55-58 of `readField`: the loop leaves the last bound name in `name`. -/
def fieldName (Names : List Ident) : String :=
  Names.foldl (fun _ nm => nm.Name) ""

/-- Lines 118-124 of `readField`: how the name and the type text are joined. -/
def joinNameTyp (name typ : String) : String :=
  if name = "" then typ
  else if typ = "" then name
  else name ++ " " ++ typ

mutual
/-- The function `readFuncType`. -/
def readFuncType : FuncType → String
  | .mk Params Results =>
    let pars := match Params with
      | some l => readFields l
      | none => []
    let ress := match Results with
      | some l => readFields l
      | none => []
    let info := "(" ++ ", ".intercalate pars ++ ")"
    match ress with
    | [] => info
    | [r] => info ++ (" " ++ r)
    | _ => info ++ (" (" ++ ", ".intercalate ress ++ ")")
/-- The loops `for _, field := range l { xs = append(xs, readField(field)) }`. -/
def readFields : List Field → List String
  | [] => []
  | field :: rest => readField field :: readFields rest
/-- The function `readField`. -/
def readField : Field → String
  | .mk Names none => joinNameTyp (fieldName Names) ""
  | .mk Names (some (.FuncType ft)) => fieldName Names ++ readFuncType ft
  | .mk Names (some (.Ident id)) => joinNameTyp (fieldName Names) id.Name
  | .mk Names (some (.ArrayType _ Elt)) =>
    joinNameTyp (fieldName Names)
      (match Elt with
       | some (.Ident id) => "[]" ++ id.Name
       | _ => "")
  | .mk Names (some (.Ellipsis Elt)) =>
    joinNameTyp (fieldName Names)
      (match Elt with
       | some (.Ident id) => "..." ++ id.Name
       | _ => "")
  | .mk Names (some (.MapType Key Value)) =>
    let key := match Key with
      | some (.Ident id) => id.Name
      | _ => ""
    let value := match Value with
      | some (.Ident id) => id.Name
      | _ => ""
    joinNameTyp (fieldName Names) ("map[" ++ key ++ "]" ++ value)
  | .mk Names (some (.StarExpr X)) =>
    joinNameTyp (fieldName Names)
      (match X with
       | some (.Ident id) => "*" ++ id.Name
       | _ => "")
  | .mk Names (some (.ChanType Dir Value)) =>
    joinNameTyp (fieldName Names)
      (match Value with
       | some (.Ident id) =>
         if Dir = SEND then "chan<- " ++ id.Name
         else if Dir = RECV then "<-chan " ++ id.Name
         else "chan " ++ id.Name
       | _ => "")
  | .mk Names (some (.InterfaceType it)) =>
    joinNameTyp (fieldName Names) (readInterfaceType it)
  | .mk Names (some _) => joinNameTyp (fieldName Names) ""
/-- The function `readInterfaceType`. -/
def readInterfaceType : InterfaceType → String
  | .mk Methods =>
    let fields := match Methods with
      | some l => readFields l
      | none => []
    if fields.length = 0 then "interface\x7b\x7d"
    else "interface \x7b\n\t" ++ "\n\t".intercalate fields ++ "\n\x7d"
end

/-! ## Matchers -/

/-- Lines 153-162 of `getValueSpec`: what one initializer appends to `values`.
The second operand text is read from `binExpr.X`, as in the source. -/
def readValue : Expr → List String
  | .BasicLit _ Value => [Value]
  | .BinaryExpr X Op _ =>
    match X with
    | .BasicLit _ x =>
      match X with
      | .BasicLit _ y => [x ++ " " ++ Op.String ++ " " ++ y]
      | _ => []
    | _ => []
  | _ => []

/-- Lines 151-163 of `getValueSpec`: the loop that fills `values`. -/
def readValues : List Expr → List String
  | [] => []
  | expr :: rest => readValue expr ++ readValues rest

/-- Lines 144-149 of `getValueSpec`: the text of an explicit type that is an
identifier, empty otherwise. -/
def valueTyp : Option Expr → String
  | some (.Ident t) => t.Name
  | _ => ""

/-- Lines 168-175 of `getValueSpec`: the declaration text. -/
def valueDecl (vt : Token) (name typ : String) (values : List String) : String :=
  let decl := vt.String ++ " " ++ name
  let decl := if typ ≠ "" then decl ++ " " ++ typ else decl
  if values.length > 0 then decl ++ " = " ++ ", ".intercalate values else decl

/-- The text of `doc.Pos` for a name at position `pos`. -/
def posText (fs : FileSet) (pos : Nat) : String :=
  if pos ≠ 0 then fs.Position pos else ""

/-- The comment text chosen by the matchers of grouped declarations: the own
comment when there is one, else the comment of the group, else nothing. -/
def docText (own group : Option CommentGroup) : String :=
  match own with
  | some c => c.Text
  | none =>
    match group with
    | some g => g.Text
    | none => ""

/-- The function `getValueSpec`: the record is built at the first bound name
equal to `name`. -/
def getValueSpec (name : String) (v : ValueSpec) (vt : Token)
    (vdoc : Option CommentGroup) (fs : FileSet) : Option Doc :=
  match v.Names.find? (fun nm => name = nm.Name) with
  | some nm =>
    some
      { Name := name
        Import := ""
        Pkg := ""
        Decl := valueDecl vt name (valueTyp v.Typ) (readValues v.Values)
        Doc := docText v.Doc vdoc
        Pos := posText fs nm.NamePos }
  | none => none

/-- Lines 207-214 of `getTypeSpec`: the rendered underlying type. -/
def typeTyp : Option Expr → String
  | some (.Ident ti) => ti.Name
  | some (.InterfaceType ti) => "" ++ readInterfaceType ti
  | _ => ""

/-- Lines 206-222 of `getTypeSpec`: the declaration text. -/
def typeDecl (tt : Token) (name typ : String) (Assign : Nat) : String :=
  let decl := tt.String ++ " " ++ name
  if typ ≠ "" then
    if Assign ≠ 0 then decl ++ " = " ++ typ else decl ++ " " ++ typ
  else decl

/-- The function `getTypeSpec`. -/
def getTypeSpec (name : String) (t : TypeSpec) (tt : Token)
    (tdoc : Option CommentGroup) (fs : FileSet) : Option Doc :=
  if name ≠ t.Name.Name then none
  else
    some
      { Name := name
        Import := ""
        Pkg := ""
        Decl := typeDecl tt name (typeTyp t.Typ) t.Assign
        Doc := docText t.Doc tdoc
        Pos := posText fs t.Name.NamePos }

/-- Lines 258-270 of `getFuncDecl`: the declaration text. -/
def funcDeclText (name : String) (Recv : Option (List Field)) (Typ : FuncType) : String :=
  let decl := "func"
  let recv := match Recv with
    | some l => readFields l
    | none => []
  let decl := if recv.length > 0 then decl ++ (" (" ++ ", ".intercalate recv ++ ")") else decl
  let decl := decl ++ (" " ++ name)
  decl ++ readFuncType Typ

/-- The function `getFuncDecl`. -/
def getFuncDecl (name : String) (f : FuncDecl) (fs : FileSet) : Option Doc :=
  if f.Name.Name ≠ name then none
  else
    some
      { Name := name
        Import := ""
        Pkg := ""
        Decl := funcDeclText name f.Recv f.Typ
        Doc := match f.Doc with
          | some c => c.Text
          | none => ""
        Pos := posText fs f.Name.NamePos }

/-! ## Resolver -/

/-- Lines 286-291 of `findBuiltinType`: the loop over the specs of a constant
or variable declaration, left at the first record. -/
def scanValueSpecs (name : String) (Tok : Token) (gdoc : Option CommentGroup)
    (fs : FileSet) : List Spec → Except Panic (Option Doc)
  | [] => .ok none
  | .ValueSpec v :: rest =>
    match getValueSpec name v Tok gdoc fs with
    | some doc => .ok (some doc)
    | none => scanValueSpecs name Tok gdoc fs rest
  | _ :: _ => .error .interfaceConversion

/-- Lines 293-298 of `findBuiltinType`: the loop over the specs of a type
declaration, left at the first record. -/
def scanTypeSpecs (name : String) (Tok : Token) (gdoc : Option CommentGroup)
    (fs : FileSet) : List Spec → Except Panic (Option Doc)
  | [] => .ok none
  | .TypeSpec t :: rest =>
    match getTypeSpec name t Tok gdoc fs with
    | some doc => .ok (some doc)
    | none => scanTypeSpecs name Tok gdoc fs rest
  | _ :: _ => .error .interfaceConversion

/-- Lines 281-302 of `findBuiltinType`: the value of `doc` after the switch on
one top-level declaration. -/
def scanDecl (name : String) (fs : FileSet) : Decl → Except Panic (Option Doc)
  | .GenDecl d =>
    match d.Tok with
    | .CONST => scanValueSpecs name d.Tok d.Doc fs d.Specs
    | .VAR => scanValueSpecs name d.Tok d.Doc fs d.Specs
    | .TYPE => scanTypeSpecs name d.Tok d.Doc fs d.Specs
    | _ => .ok none
  | .FuncDecl d => .ok (getFuncDecl name d fs)
  | .BadDecl => .ok none

/-- Lines 303-307 of `findBuiltinType`: the record as it is returned. -/
def stamp (doc : Doc) : Doc :=
  { doc with Import := "builtin", Pkg := "builtin" }

/-- Lines 280-308 of `findBuiltinType`: the loop over the declarations of one
file; `some doc` is the `return doc` inside the loop. -/
def scanDecls (name : String) (fs : FileSet) : List Decl → Except Panic (Option Doc)
  | [] => .ok none
  | decl :: rest =>
    match scanDecl name fs decl with
    | .error e => .error e
    | .ok (some doc) => .ok (some (stamp doc))
    | .ok none => scanDecls name fs rest

/-- Lines 279-310 of `findBuiltinType`: the loop over the files. -/
def scanFiles (name : String) (fs : FileSet) : List File → Except Panic (Option Doc)
  | [] => .ok none
  | f :: rest =>
    match scanDecls name fs f.Decls with
    | .error e => .error e
    | .ok (some doc) => .ok (some doc)
    | .ok none => scanFiles name fs rest

/-- The function `findBuiltinType`, given the file set and the package that
`builtinPackage` returns. -/
def findBuiltinType (fs : FileSet) (pkg : Package) (name : String) :
    Except Panic (Option Doc) :=
  scanFiles name fs pkg.Files

/-! ## Definitions used to state the properties -/

/-- The texts of an optional field list, in the order of the fields. -/
def fieldTexts (fl : Option (List Field)) : List String :=
  (fl.getD []).map readField

/-- A place of the unit where the resolver applies a matcher: a member spec of
a constant or variable declaration, a member spec of a type declaration, or a
function declaration.  A spec carries the keyword and the comment of its
declaration. -/
inductive Candidate
  | valueSpec (Tok : Token) (gdoc : Option CommentGroup) (spec : Spec)
  | typeSpec (Tok : Token) (gdoc : Option CommentGroup) (spec : Spec)
  | funcDecl (f : FuncDecl)

/-- The candidates of one top-level declaration, member specs in their order. -/
def Decl.candidates : Decl → List Candidate
  | .GenDecl d =>
    if d.Tok = .CONST ∨ d.Tok = .VAR then d.Specs.map (.valueSpec d.Tok d.Doc)
    else if d.Tok = .TYPE then d.Specs.map (.typeSpec d.Tok d.Doc)
    else []
  | .FuncDecl f => [.funcDecl f]
  | .BadDecl => []

/-- The candidates of the unit in source order. -/
def Package.candidates (pkg : Package) : List Candidate :=
  pkg.Files.flatMap (fun f => f.Decls.flatMap Decl.candidates)

/-- What the matcher of its kind yields for a candidate; the type assertion
of the resolver panics on a spec of another kind. -/
def Candidate.yield (name : String) (fs : FileSet) : Candidate → Except Panic (Option Doc)
  | .valueSpec Tok gdoc (.ValueSpec v) => .ok (getValueSpec name v Tok gdoc fs)
  | .valueSpec _ _ _ => .error .interfaceConversion
  | .typeSpec Tok gdoc (.TypeSpec t) => .ok (getTypeSpec name t Tok gdoc fs)
  | .typeSpec _ _ _ => .error .interfaceConversion
  | .funcDecl f => .ok (getFuncDecl name f fs)

/-- The first record in a list of candidates, tried in order. -/
def firstYield (name : String) (fs : FileSet) : List Candidate → Except Panic (Option Doc)
  | [] => .ok none
  | c :: rest =>
    match c.yield name fs with
    | .error e => .error e
    | .ok (some doc) => .ok (some doc)
    | .ok none => firstYield name fs rest

/-- The result of the resolver for a result of the search: the record found,
if any, is returned with the unit name in `Import` and `Pkg`. -/
def stampResult : Except Panic (Option Doc) → Except Panic (Option Doc)
  | .ok (some doc) => .ok (some (stamp doc))
  | r => r

/-- A unit with two declarations of `x`: the second spec of a constant
declaration, and a later function. -/
def twiceDeclared : Package :=
  { Files := [{ Decls :=
      [ .GenDecl
          { Doc := none
            Tok := .CONST
            Specs :=
              [ .ValueSpec { Doc := none, Names := [⟨8, "w"⟩], Typ := none,
                             Values := [.BasicLit 12 "0"] },
                .ValueSpec { Doc := none, Names := [⟨15, "x"⟩], Typ := none,
                             Values := [.BasicLit 19 "1"] },
                .ValueSpec { Doc := none, Names := [⟨22, "x"⟩], Typ := none,
                             Values := [.BasicLit 26 "2"] } ] },
        .FuncDecl { Doc := none, Recv := none, Name := ⟨35, "x"⟩, Typ := .mk (some []) none } ] }] }

/-- Whether a spec is an `*ast.ImportSpec`. -/
def Spec.isImportSpec : Spec → Bool
  | .ImportSpec _ => true
  | _ => false

/-- Whether a spec is an `*ast.ValueSpec`. -/
def Spec.isValueSpec : Spec → Bool
  | .ValueSpec _ => true
  | _ => false

/-- Whether a spec is an `*ast.TypeSpec`. -/
def Spec.isTypeSpec : Spec → Bool
  | .TypeSpec _ => true
  | _ => false

/-- The relationship between `Tok` and the element type of `Specs` that
`go/ast` documents for `GenDecl` and `go/parser` establishes: `IMPORT` goes
with import specs, `CONST` and `VAR` with value specs, `TYPE` with type specs. -/
def GenDecl.wellFormed (d : GenDecl) : Bool :=
  match d.Tok with
  | .IMPORT => d.Specs.all Spec.isImportSpec
  | .CONST => d.Specs.all Spec.isValueSpec
  | .VAR => d.Specs.all Spec.isValueSpec
  | .TYPE => d.Specs.all Spec.isTypeSpec
  | _ => false

/-- A declaration whose general declarations are well formed. -/
def Decl.wellFormed : Decl → Bool
  | .GenDecl d => d.wellFormed
  | _ => true

/-- A unit all of whose declarations are well formed. -/
def Package.wellFormed (pkg : Package) : Bool :=
  pkg.Files.all (fun f => f.Decls.all Decl.wellFormed)

/-- The names a spec declares: the names a constant or variable spec binds,
the name of a type spec. -/
def Spec.names : Spec → List String
  | .ValueSpec v => v.Names.map (fun nm => nm.Name)
  | .TypeSpec t => [t.Name.Name]
  | .ImportSpec _ => []

/-- The names a top-level declaration declares: those of its specs, or the
name of the function or method. -/
def Decl.names : Decl → List String
  | .GenDecl d => d.Specs.flatMap Spec.names
  | .FuncDecl f => [f.Name.Name]
  | .BadDecl => []

/-- The names the unit declares. -/
def Package.names (pkg : Package) : List String :=
  pkg.Files.flatMap (fun f => f.Decls.flatMap Decl.names)

/-- Lines 59-117 of `readField`: the text that the switch on the type of a
field leaves in `typ`, the rendered type text. -/
def fieldTyp : Option Expr → String
  | none => ""
  | some (.FuncType ft) => readFuncType ft
  | some (.Ident id) => id.Name
  | some (.ArrayType _ Elt) =>
    match Elt with
    | some (.Ident id) => "[]" ++ id.Name
    | _ => ""
  | some (.Ellipsis Elt) =>
    match Elt with
    | some (.Ident id) => "..." ++ id.Name
    | _ => ""
  | some (.MapType Key Value) =>
    let key := match Key with
      | some (.Ident id) => id.Name
      | _ => ""
    let value := match Value with
      | some (.Ident id) => id.Name
      | _ => ""
    "map[" ++ key ++ "]" ++ value
  | some (.StarExpr X) =>
    match X with
    | some (.Ident id) => "*" ++ id.Name
    | _ => ""
  | some (.ChanType Dir Value) =>
    match Value with
    | some (.Ident id) =>
      if Dir = SEND then "chan<- " ++ id.Name
      else if Dir = RECV then "<-chan " ++ id.Name
      else "chan " ++ id.Name
    | _ => ""
  | some (.InterfaceType it) => readInterfaceType it
  | some _ => ""

/-- The Named text of a part of a type, in the words of the spec
(`render_named`): the identifier of a Named part, empty text for any other. -/
def renderNamed : Option Expr → String
  | some (.Ident id) => id.Name
  | _ => ""

/-- Whether an optional part of a type is Named, a bare identifier. -/
def isNamed : Option Expr → Bool
  | some (.Ident _) => true
  | _ => false

/-- The type of a field. -/
def Field.typ : Field → Option Expr
  | .mk _ Typ => Typ

/-- The type `[][]int`, a slice of slices. -/
def sliceOfSlices : Expr :=
  .ArrayType none (some (.ArrayType none (some (.Ident ⟨13, "int"⟩))))

/-- The method field `Error() string` of an interface. -/
def errorMethod : Field :=
  .mk [⟨24, "Error"⟩]
    (some (.FuncType (.mk (some []) (some [.mk [] (some (.Ident ⟨32, "string"⟩))]))))

/-- The parameter field `dst, src []Type`. -/
def dstSrc : Field :=
  .mk [⟨11, "dst"⟩, ⟨16, "src"⟩] (some (.ArrayType none (some (.Ident ⟨22, "Type"⟩))))

/-- The builtin `func copy(dst, src []Type) int`. -/
def copyDecl : FuncDecl :=
  { Doc := none
    Recv := none
    Name := ⟨6, "copy"⟩
    Typ := .mk (some [dstSrc]) (some [.mk [] (some (.Ident ⟨28, "int"⟩))]) }

/-- The spec `c = 1 << n` of a constant declaration: the right operand of the
initializer is an identifier. -/
def shiftSpec : ValueSpec :=
  { Doc := none
    Names := [⟨7, "c"⟩]
    Typ := none
    Values := [.BinaryExpr (.BasicLit 11 "1") .SHL (.Ident ⟨16, "n"⟩)] }

/-- The spec `k = 1 << 3` of a constant declaration: both operands of the
initializer are literals. -/
def shiftLitSpec : ValueSpec :=
  { Doc := none
    Names := [⟨7, "k"⟩]
    Typ := none
    Values := [.BinaryExpr (.BasicLit 11 "1") .SHL (.BasicLit 16 "3")] }

/-- The method `Read` of the spec's scenario:
`func (r Reader) Read(p []byte) (n int, err error)`. -/
def readMethod : FuncDecl :=
  { Doc := none
    Recv := some [.mk [⟨6, "r"⟩] (some (.Ident ⟨8, "Reader"⟩))]
    Name := ⟨16, "Read"⟩
    Typ := .mk
      (some [.mk [⟨21, "p"⟩] (some (.ArrayType none (some (.Ident ⟨25, "byte"⟩))))])
      (some [.mk [⟨32, "n"⟩] (some (.Ident ⟨34, "int"⟩)),
             .mk [⟨39, "err"⟩] (some (.Ident ⟨43, "error"⟩))]) }

/-- The type of the spec's scenario: `type error interface { Error() string }`. -/
def errorSpec : TypeSpec :=
  { Doc := none
    Name := ⟨6, "error"⟩
    Assign := 0
    Typ := some (.InterfaceType (.mk (some
      [.mk [⟨24, "Error"⟩]
        (some (.FuncType (.mk (some []) (some [.mk [] (some (.Ident ⟨32, "string"⟩))]))))]))) }

/-- The alias `type byte = uint8`, documented by its group only. -/
def byteSpec : TypeSpec :=
  { Doc := none
    Name := ⟨6, "byte"⟩
    Assign := 11
    Typ := some (.Ident ⟨13, "uint8"⟩) }

/-- The spec `a, b = 1, 2` of a constant declaration. -/
def abSpec : ValueSpec :=
  { Doc := none
    Names := [⟨7, "a"⟩, ⟨10, "b"⟩]
    Typ := none
    Values := [.BasicLit 14 "1", .BasicLit 17 "2"] }

/-- The spec `Nil int = 0` of the spec's scenario `var Nil int = 0`. -/
def nilSpec : ValueSpec :=
  { Doc := some ⟨"Nil is the zero value.\n"⟩
    Names := [⟨5, "Nil"⟩]
    Typ := some (.Ident ⟨9, "int"⟩)
    Values := [.BasicLit 15 "0"] }

/-- A file set that gives every position the same text. -/
def fileSet : FileSet :=
  ⟨fun _ => "builtin.go:1:1"⟩

/-! ## Rendering: lemmas -/

theorem readFields_eq_map (l : List Field) : readFields l = l.map readField := by
  induction l with
  | nil => simp [readFields]
  | cons field rest ih => simp [readFields, ih]

theorem resultText_eq (info : String) (ress : List String) :
    (match ress with
      | [] => info
      | [r] => info ++ (" " ++ r)
      | _ => info ++ (" (" ++ ", ".intercalate ress ++ ")")) =
    info ++
      (match ress with
       | [] => ""
       | [r] => " " ++ r
       | ress => " (" ++ ", ".intercalate ress ++ ")") := by
  rcases ress with _ | ⟨r, _ | ⟨r2, rest⟩⟩ <;> simp

theorem readFuncType_eq (Params Results : Option (List Field)) :
    readFuncType (.mk Params Results) =
      "(" ++ ", ".intercalate (fieldTexts Params) ++ ")" ++
        (match fieldTexts Results with
         | [] => ""
         | [r] => " " ++ r
         | ress => " (" ++ ", ".intercalate ress ++ ")") := by
  rw [← resultText_eq]
  cases Params <;> cases Results <;>
    simp only [readFuncType, fieldTexts, readFields_eq_map, Option.getD, List.map_nil]

theorem readInterfaceType_eq (Methods : Option (List Field)) :
    readInterfaceType (.mk Methods) =
      if (fieldTexts Methods).length = 0 then "interface\x7b\x7d"
      else "interface \x7b\n\t" ++ "\n\t".intercalate (fieldTexts Methods) ++ "\n\x7d" := by
  cases Methods <;>
    simp only [readInterfaceType, fieldTexts, readFields_eq_map, Option.getD, List.map_nil]

theorem fieldName_append_singleton (ns : List Ident) (nm : Ident) :
    fieldName (ns ++ [nm]) = nm.Name := by
  simp [fieldName]

/-! ## Rendering: function signatures, interfaces, function-typed fields -/

/-- C4: `readFuncType` renders the parameter fields joined by a comma and a
space inside parentheses, then nothing for zero result fields, a space and the
bare result text for exactly one, and a space and the parenthesised joined
result texts for two or more; an absent or empty parameter list still gives
the parentheses. -/
theorem readFuncType_signature (Params Results : Option (List Field)) :
    readFuncType (.mk Params Results) =
        "(" ++ ", ".intercalate ((Params.getD []).map readField) ++ ")" ++
          (match Results.getD [] with
           | [] => ""
           | [r] => " " ++ readField r
           | rs => " (" ++ ", ".intercalate (rs.map readField) ++ ")")
      ∧ readFuncType (.mk none none) = "()"
      ∧ readFuncType (.mk (some []) none) = "()"
      ∧ readFuncType (.mk none (some [])) = "()"
      ∧ readFuncType (.mk (some []) (some [])) = "()" := by
  refine ⟨?_, by decide, by decide, by decide, by decide⟩
  rw [readFuncType_eq]
  simp only [fieldTexts]
  rcases Results.getD [] with _ | ⟨r, _ | ⟨r2, rest⟩⟩ <;> simp

/-- C5: `readInterfaceType` is the text `interface{}` for an absent or empty
method list, and otherwise the opening `interface {`, the method field texts in
declared order joined by a newline and a tab, and the closing brace on a line
of its own. -/
theorem readInterfaceType_text :
    readInterfaceType (.mk none) = "interface\x7b\x7d"
      ∧ readInterfaceType (.mk (some [])) = "interface\x7b\x7d"
      ∧ ∀ (m : Field) (ms : List Field),
          readInterfaceType (.mk (some (m :: ms))) =
            "interface \x7b\n\t" ++ "\n\t".intercalate ((m :: ms).map readField) ++ "\n\x7d" := by
  refine ⟨by decide, by decide, ?_⟩
  intro m ms
  rw [readInterfaceType_eq]
  simp [fieldTexts]

/-- C10: a field whose type is a function type renders as its name directly
followed by the signature text, without a space, and as the signature text
alone when it binds no name; the method `Error() string` is an instance. -/
theorem readField_funcType (ft : FuncType) :
    (∀ nm : Ident, readField (.mk [nm] (some (.FuncType ft))) = nm.Name ++ readFuncType ft)
      ∧ readField (.mk [] (some (.FuncType ft))) = readFuncType ft
      ∧ (∀ (ns : List Ident) (nm : Ident),
          readField (.mk (ns ++ [nm]) (some (.FuncType ft))) = nm.Name ++ readFuncType ft)
      ∧ readField (.mk [⟨1, "Error"⟩]
          (some (.FuncType (.mk (some []) (some [.mk [] (some (.Ident ⟨7, "string"⟩))]))))) =
            "Error() string" := by
  refine ⟨?_, ?_, ?_, by decide⟩
  · intro nm
    simp [readField, fieldName]
  · simp [readField, fieldName]
  · intro ns nm
    simp [readField, fieldName]

/-! ## Matchers: declaration text, doc text, nil results -/

theorem readInterfaceType_ne_empty (it : InterfaceType) : readInterfaceType it ≠ "" := by
  cases it with
  | mk Methods =>
    rw [readInterfaceType_eq]
    split
    · decide
    · intro h
      have hl := congrArg String.length h
      simp only [String.length_append] at hl
      have h2 : ("\n\x7d").length = 2 := by decide
      have h0 : ("").length = 0 := by decide
      omega

/-- C3: for a function or method declaration named as requested, the
declaration text is `func`, then the parenthesised receiver field texts when
the receiver list has a field, then a space and the name, then the signature;
without a receiver it is `func`, a space, the name and the signature.  The
method `Read` of the spec renders back to its source text. -/
theorem getFuncDecl_decl (cg : Option CommentGroup) (Recv : Option (List Field))
    (Name : Ident) (Typ : FuncType) (fs : FileSet) :
    Option.map Doc.Decl (getFuncDecl Name.Name ⟨cg, Recv, Name, Typ⟩ fs) =
        some ("func" ++
          (match Recv with
           | some (r :: rs) => " (" ++ ", ".intercalate ((r :: rs).map readField) ++ ")"
           | _ => "") ++ " " ++ Name.Name ++ readFuncType Typ)
      ∧ Option.map Doc.Decl (getFuncDecl Name.Name ⟨cg, none, Name, Typ⟩ fs) =
          some ("func " ++ Name.Name ++ readFuncType Typ)
      ∧ Option.map Doc.Decl (getFuncDecl Name.Name ⟨cg, some [], Name, Typ⟩ fs) =
          some ("func " ++ Name.Name ++ readFuncType Typ)
      ∧ Option.map Doc.Decl (getFuncDecl "Read" readMethod fileSet) =
          some "func (r Reader) Read(p []byte) (n int, err error)" := by
  refine ⟨?_, ?_, ?_, by decide⟩
  · rcases Recv with _ | _ | ⟨r, rs⟩ <;>
      simp [getFuncDecl, funcDeclText, readFields_eq_map, ← String.append_assoc]
  · simp only [getFuncDecl, funcDeclText, ne_eq, not_true_eq_false, if_false, Option.map_some',
      List.length_nil, gt_iff_lt, lt_self_iff_false, ← String.append_assoc]
    rfl
  · simp only [getFuncDecl, funcDeclText, readFields, ne_eq, not_true_eq_false, if_false,
      Option.map_some', List.length_nil, gt_iff_lt, lt_self_iff_false, ← String.append_assoc]
    rfl

theorem find_name_isSome (name : String) (Names : List Ident)
    (h : ∃ nm ∈ Names, nm.Name = name) :
    ∃ nm, Names.find? (fun nm => name = nm.Name) = some nm := by
  obtain ⟨nm, hmem, hnm⟩ := h
  cases hf : Names.find? (fun nm => name = nm.Name) with
  | some x => exact ⟨x, rfl⟩
  | none =>
    rw [List.find?_eq_none] at hf
    have := hf nm hmem
    simp [hnm] at this

theorem getValueSpec_of_mem (name : String) (v : ValueSpec) (vt : Token)
    (vdoc : Option CommentGroup) (fs : FileSet) (h : ∃ nm ∈ v.Names, nm.Name = name) :
    ∃ nm : Ident, getValueSpec name v vt vdoc fs =
      some
        { Name := name
          Import := ""
          Pkg := ""
          Decl := valueDecl vt name (valueTyp v.Typ) (readValues v.Values)
          Doc := docText v.Doc vdoc
          Pos := posText fs nm.NamePos } := by
  obtain ⟨nm, hnm⟩ := find_name_isSome name v.Names h
  exact ⟨nm, by simp [getValueSpec, hnm]⟩

theorem readValues_eq_flatten (l : List Expr) :
    readValues l = (l.map readValue).flatten := by
  induction l with
  | nil => simp [readValues]
  | cons e rest ih => simp [readValues, ih]

/-- C6: for a type spec named as requested, the declaration text is `type`,
a space and the name, followed, when the underlying type is an identifier or
an interface type, by its text after ` = ` for an alias and after a space
otherwise; every other or missing underlying type leaves `type <name>`.
Identifiers are non-empty, as in every parsed tree. -/
theorem getTypeSpec_decl (t : TypeSpec) (tdoc : Option CommentGroup) (fs : FileSet)
    (hid : ∀ ti, t.Typ = some (.Ident ti) → ti.Name ≠ "") :
    Option.map Doc.Decl (getTypeSpec t.Name.Name t .TYPE tdoc fs) =
        some ("type " ++ t.Name.Name ++
          (match t.Typ with
           | some (.Ident ti) => (if t.Assign ≠ 0 then " = " else " ") ++ ti.Name
           | some (.InterfaceType it) =>
             (if t.Assign ≠ 0 then " = " else " ") ++ readInterfaceType it
           | _ => ""))
      ∧ Option.map Doc.Decl (getTypeSpec "error" errorSpec .TYPE none fileSet) =
          some "type error interface \x7b\n\tError() string\n\x7d" := by
  refine ⟨?_, by decide⟩
  obtain ⟨cg, Name, Assign, Typ⟩ := t
  simp only [getTypeSpec, ne_eq, not_true_eq_false, if_false, Option.map_some', typeDecl,
    Token.String, Option.some.injEq]
  have hty : ("type" ++ " " ++ Name.Name) = "type " ++ Name.Name := rfl
  rw [hty]
  match Typ, hid with
  | none, _ => simp [typeTyp]
  | some (.Ident ti), hid =>
    have hne : ti.Name ≠ "" := hid ti rfl
    by_cases ha : Assign = 0 <;> simp [typeTyp, hne, ha, ← String.append_assoc]
  | some (.InterfaceType it), _ =>
    have hne : readInterfaceType it ≠ "" := readInterfaceType_ne_empty it
    by_cases ha : Assign = 0 <;> simp [typeTyp, hne, ha, ← String.append_assoc]
  | some (.BasicLit _ _), _ => simp [typeTyp]
  | some (.BinaryExpr _ _ _), _ => simp [typeTyp]
  | some (.FuncType _), _ => simp [typeTyp]
  | some (.ArrayType _ _), _ => simp [typeTyp]
  | some (.Ellipsis _), _ => simp [typeTyp]
  | some (.MapType _ _), _ => simp [typeTyp]
  | some (.StarExpr _), _ => simp [typeTyp]
  | some (.ChanType _ _), _ => simp [typeTyp]
  | some (.StructType _), _ => simp [typeTyp]
  | some (.SelectorExpr _ _), _ => simp [typeTyp]
  | some (.ParenExpr _), _ => simp [typeTyp]
  | some (.UnaryExpr _ _), _ => simp [typeTyp]
  | some (.CallExpr _ _), _ => simp [typeTyp]
  | some .BadExpr, _ => simp [typeTyp]

/-- C6 at the alias `type byte = uint8`. -/
theorem getTypeSpec_decl_witness :
    (∀ ti, byteSpec.Typ = some (.Ident ti) → ti.Name ≠ "")
      ∧ Option.map Doc.Decl (getTypeSpec "byte" byteSpec .TYPE none fileSet) =
          some "type byte = uint8" :=
  have hid : ∀ ti, byteSpec.Typ = some (.Ident ti) → ti.Name ≠ "" := by
    intro ti h
    simp only [byteSpec, Option.some.injEq, Expr.Ident.injEq] at h
    subst h
    decide
  ⟨hid, (getTypeSpec_decl byteSpec none fileSet hid).1.trans (by decide)⟩

/-- C7: for a constant or variable spec that binds the requested name, the
declaration text is the keyword, a space and the requested name, then a space
and the type identifier when the explicit type is an identifier, then ` = `
and the rendered initializers of the whole spec joined by a comma and a space
when at least one was rendered, whatever the position of the matched name.
Identifiers are non-empty, as in every parsed tree. -/
theorem getValueSpec_decl (name : String) (v : ValueSpec) (vt : Token)
    (vdoc : Option CommentGroup) (fs : FileSet)
    (hname : ∃ nm ∈ v.Names, nm.Name = name)
    (hvt : vt = .CONST ∨ vt = .VAR)
    (hid : ∀ t, v.Typ = some (.Ident t) → t.Name ≠ "") :
    Option.map Doc.Decl (getValueSpec name v vt vdoc fs) =
        some ((if vt = .CONST then "const" else "var") ++ " " ++ name ++
          (match v.Typ with
           | some (.Ident t) => " " ++ t.Name
           | _ => "") ++
          (if (v.Values.map readValue).flatten = [] then ""
           else " = " ++ ", ".intercalate (v.Values.map readValue).flatten))
      ∧ Option.map Doc.Decl (getValueSpec "b" abSpec .CONST none fileSet) =
          some "const b = 1, 2"
      ∧ Option.map Doc.Decl (getValueSpec "Nil" nilSpec .VAR none fileSet) =
          some "var Nil int = 0" := by
  refine ⟨?_, by decide, by decide⟩
  obtain ⟨nm, hnm⟩ := getValueSpec_of_mem name v vt vdoc fs hname
  rw [hnm, ← readValues_eq_flatten]
  simp only [Option.map_some', Option.some.injEq, valueDecl]
  have hkw : vt.String = (if vt = .CONST then "const" else "var") := by
    rcases hvt with h | h <;> subst h <;> rfl
  rw [hkw]
  have htyp : (if valueTyp v.Typ ≠ "" then
        (if vt = .CONST then "const" else "var") ++ " " ++ name ++ " " ++ valueTyp v.Typ
      else (if vt = .CONST then "const" else "var") ++ " " ++ name) =
      (if vt = .CONST then "const" else "var") ++ " " ++ name ++
        (match v.Typ with
         | some (.Ident t) => " " ++ t.Name
         | _ => "") := by
    match hv : v.Typ, hid with
    | some (.Ident t), hid =>
      have hne : t.Name ≠ "" := hid t rfl
      simp [valueTyp, hne, String.append_assoc]
    | none, _ => simp [valueTyp]
    | some (.BasicLit _ _), _ => simp [valueTyp]
    | some (.BinaryExpr _ _ _), _ => simp [valueTyp]
    | some (.FuncType _), _ => simp [valueTyp]
    | some (.ArrayType _ _), _ => simp [valueTyp]
    | some (.Ellipsis _), _ => simp [valueTyp]
    | some (.MapType _ _), _ => simp [valueTyp]
    | some (.StarExpr _), _ => simp [valueTyp]
    | some (.ChanType _ _), _ => simp [valueTyp]
    | some (.InterfaceType _), _ => simp [valueTyp]
    | some (.StructType _), _ => simp [valueTyp]
    | some (.SelectorExpr _ _), _ => simp [valueTyp]
    | some (.ParenExpr _), _ => simp [valueTyp]
    | some (.UnaryExpr _ _), _ => simp [valueTyp]
    | some (.CallExpr _ _), _ => simp [valueTyp]
    | some .BadExpr, _ => simp [valueTyp]
  simp only [htyp]
  cases hvals : readValues v.Values with
  | nil => simp
  | cons x xs => simp [String.append_assoc]

/-- C7 at `const a, b = 1, 2`, queried for the second name. -/
theorem getValueSpec_decl_witness :
    (∃ nm ∈ abSpec.Names, nm.Name = "b")
      ∧ Option.map Doc.Decl (getValueSpec "b" abSpec .CONST none fileSet) =
          some "const b = 1, 2" :=
  have hname : ∃ nm ∈ abSpec.Names, nm.Name = "b" := ⟨⟨10, "b"⟩, by decide, rfl⟩
  have hid : ∀ t, abSpec.Typ = some (.Ident t) → t.Name ≠ "" := by
    intro t h
    simp [abSpec] at h
  ⟨hname,
    (getValueSpec_decl "b" abSpec .CONST none fileSet hname (Or.inl rfl) hid).1.trans
      (by decide)⟩

/-- C8: the doc text of a matching constant or variable spec is the text of
its own comment when it has one, else the text of the comment of the enclosing
declaration, else empty; `getTypeSpec` follows the same rule, and
`getFuncDecl` uses the own comment of the function or the empty text. -/
theorem matcher_doc_text (name : String) (v : ValueSpec) (vt : Token)
    (vdoc : Option CommentGroup) (t : TypeSpec) (tt : Token) (tdoc : Option CommentGroup)
    (f : FuncDecl) (fs : FileSet) (hname : ∃ nm ∈ v.Names, nm.Name = name) :
    Option.map Doc.Doc (getValueSpec name v vt vdoc fs) =
        some (match v.Doc, vdoc with
          | some own, _ => own.Text
          | none, some group => group.Text
          | none, none => "")
      ∧ Option.map Doc.Doc (getTypeSpec t.Name.Name t tt tdoc fs) =
        some (match t.Doc, tdoc with
          | some own, _ => own.Text
          | none, some group => group.Text
          | none, none => "")
      ∧ Option.map Doc.Doc (getFuncDecl f.Name.Name f fs) =
        some (match f.Doc with
          | some own => own.Text
          | none => "") := by
  refine ⟨?_, ?_, ?_⟩
  · obtain ⟨nm, hnm⟩ := getValueSpec_of_mem name v vt vdoc fs hname
    rw [hnm]
    cases v.Doc <;> cases vdoc <;> simp [docText]
  · cases h1 : t.Doc <;> cases tdoc <;> simp [getTypeSpec, docText, h1]
  · simp [getFuncDecl]

/-- C8 at `Nil int = 0`, which has a comment of its own inside a commented
declaration. -/
theorem matcher_doc_text_witness :
    (∃ nm ∈ nilSpec.Names, nm.Name = "Nil")
      ∧ Option.map Doc.Doc (getValueSpec "Nil" nilSpec .VAR (some ⟨"Variables.\n"⟩) fileSet) =
          some "Nil is the zero value.\n"
      ∧ Option.map Doc.Doc (getTypeSpec "byte" byteSpec .TYPE (some ⟨"Aliases.\n"⟩) fileSet) =
          some "Aliases.\n"
      ∧ Option.map Doc.Doc (getFuncDecl "Read" readMethod fileSet) = some "" :=
  have hname : ∃ nm ∈ nilSpec.Names, nm.Name = "Nil" := ⟨⟨5, "Nil"⟩, by decide, rfl⟩
  ⟨hname,
    matcher_doc_text "Nil" nilSpec .VAR (some ⟨"Variables.\n"⟩) byteSpec .TYPE
      (some ⟨"Aliases.\n"⟩) readMethod fileSet hname⟩

/-- C9: each matcher returns nil exactly when the declaration does not name
the requested symbol, and the `Name` of every record it returns is the
requested name. -/
theorem matcher_nil_iff (name : String) (v : ValueSpec) (vt : Token)
    (vdoc : Option CommentGroup) (t : TypeSpec) (tt : Token) (tdoc : Option CommentGroup)
    (f : FuncDecl) (fs : FileSet) :
    (getValueSpec name v vt vdoc fs = none ↔ ∀ nm ∈ v.Names, nm.Name ≠ name)
      ∧ (getTypeSpec name t tt tdoc fs = none ↔ t.Name.Name ≠ name)
      ∧ (getFuncDecl name f fs = none ↔ f.Name.Name ≠ name)
      ∧ (∀ d, getValueSpec name v vt vdoc fs = some d → d.Name = name)
      ∧ (∀ d, getTypeSpec name t tt tdoc fs = some d → d.Name = name)
      ∧ (∀ d, getFuncDecl name f fs = some d → d.Name = name) := by
  refine ⟨?_, ?_, ?_, ?_, ?_, ?_⟩
  · constructor
    · intro h nm hmem hnm
      obtain ⟨x, hx⟩ := getValueSpec_of_mem name v vt vdoc fs ⟨nm, hmem, hnm⟩
      rw [hx] at h
      exact Option.noConfusion h
    · intro h
      have hf : v.Names.find? (fun nm => name = nm.Name) = none := by
        rw [List.find?_eq_none]
        intro nm hmem
        have := h nm hmem
        simpa [eq_comm] using this
      simp [getValueSpec, hf]
  · by_cases h : name = t.Name.Name
    · simp [getTypeSpec, h]
    · have h2 : ¬ t.Name.Name = name := fun e => h e.symm
      simp [getTypeSpec, h, h2]
  · by_cases h : f.Name.Name = name <;> simp [getFuncDecl, h]
  · intro d hd
    unfold getValueSpec at hd
    split at hd
    · simp only [Option.some.injEq] at hd
      rw [← hd]
    · exact Option.noConfusion hd
  · intro d hd
    unfold getTypeSpec at hd
    split at hd
    · exact Option.noConfusion hd
    · simp only [Option.some.injEq] at hd
      rw [← hd]
  · intro d hd
    unfold getFuncDecl at hd
    split at hd
    · exact Option.noConfusion hd
    · simp only [Option.some.injEq] at hd
      rw [← hd]

/-! ## Resolver: first match and absent names -/

theorem firstYield_append (name : String) (fs : FileSet) (l1 l2 : List Candidate) :
    firstYield name fs (l1 ++ l2) =
      match firstYield name fs l1 with
      | .ok none => firstYield name fs l2
      | r => r := by
  induction l1 with
  | nil => simp [firstYield]
  | cons c rest ih =>
    simp only [List.cons_append, firstYield]
    rcases hc : c.yield name fs with e | _ | doc <;> simp [ih]

theorem scanValueSpecs_eq (name : String) (Tok : Token) (gdoc : Option CommentGroup)
    (fs : FileSet) (specs : List Spec) :
    scanValueSpecs name Tok gdoc fs specs =
      firstYield name fs (specs.map (.valueSpec Tok gdoc)) := by
  induction specs with
  | nil => simp [scanValueSpecs, firstYield]
  | cons spec rest ih =>
    cases spec with
    | ValueSpec v =>
      simp only [scanValueSpecs, List.map_cons, firstYield, Candidate.yield]
      cases getValueSpec name v Tok gdoc fs <;> simp [ih]
    | ImportSpec s => simp [scanValueSpecs, firstYield, Candidate.yield]
    | TypeSpec t => simp [scanValueSpecs, firstYield, Candidate.yield]

theorem scanTypeSpecs_eq (name : String) (Tok : Token) (gdoc : Option CommentGroup)
    (fs : FileSet) (specs : List Spec) :
    scanTypeSpecs name Tok gdoc fs specs =
      firstYield name fs (specs.map (.typeSpec Tok gdoc)) := by
  induction specs with
  | nil => simp [scanTypeSpecs, firstYield]
  | cons spec rest ih =>
    cases spec with
    | TypeSpec t =>
      simp only [scanTypeSpecs, List.map_cons, firstYield, Candidate.yield]
      cases getTypeSpec name t Tok gdoc fs <;> simp [ih]
    | ImportSpec s => simp [scanTypeSpecs, firstYield, Candidate.yield]
    | ValueSpec v => simp [scanTypeSpecs, firstYield, Candidate.yield]

theorem scanDecl_eq (name : String) (fs : FileSet) (decl : Decl) :
    scanDecl name fs decl = firstYield name fs decl.candidates := by
  cases decl with
  | BadDecl => simp [scanDecl, Decl.candidates, firstYield]
  | FuncDecl f =>
    simp only [scanDecl, Decl.candidates, firstYield, Candidate.yield]
    cases getFuncDecl name f fs <;> simp
  | GenDecl d =>
    obtain ⟨cg, Tok, Specs⟩ := d
    cases Tok <;>
      simp [scanDecl, Decl.candidates, firstYield, scanValueSpecs_eq, scanTypeSpecs_eq]

theorem scanDecls_eq (name : String) (fs : FileSet) (decls : List Decl) :
    scanDecls name fs decls =
      stampResult (firstYield name fs (decls.flatMap Decl.candidates)) := by
  induction decls with
  | nil => simp [scanDecls, firstYield, stampResult]
  | cons decl rest ih =>
    simp only [scanDecls, List.flatMap_cons, firstYield_append, scanDecl_eq]
    rcases hd : firstYield name fs decl.candidates with e | _ | doc <;>
      simp [ih, stampResult]

theorem scanFiles_eq (name : String) (fs : FileSet) (files : List File) :
    scanFiles name fs files =
      stampResult (firstYield name fs
        (files.flatMap (fun f => f.Decls.flatMap Decl.candidates))) := by
  induction files with
  | nil => simp [scanFiles, firstYield, stampResult]
  | cons f rest ih =>
    simp only [scanFiles, List.flatMap_cons, firstYield_append, scanDecls_eq]
    rcases hd : firstYield name fs (f.Decls.flatMap Decl.candidates) with e | _ | doc <;>
      simp [ih, stampResult]

theorem findBuiltinType_eq (fs : FileSet) (pkg : Package) (name : String) :
    findBuiltinType fs pkg name = stampResult (firstYield name fs pkg.candidates) := by
  simp [findBuiltinType, scanFiles_eq, Package.candidates]

theorem firstYield_skip (name : String) (fs : FileSet) (pre l : List Candidate)
    (hpre : ∀ x ∈ pre, x.yield name fs = .ok none) :
    firstYield name fs (pre ++ l) = firstYield name fs l := by
  induction pre with
  | nil => simp
  | cons c rest ih =>
    have hc : c.yield name fs = .ok none := hpre c (by simp)
    have hrest : ∀ x ∈ rest, x.yield name fs = .ok none :=
      fun x hx => hpre x (by simp [hx])
    simp [firstYield, hc, ih hrest]

/-- C1: the resolver returns the record of the first candidate in source
order for which the matcher yields one: when every earlier candidate yields
nil and this one yields `d`, the result is `d` with the unit name filled in,
whatever candidates follow. -/
theorem findBuiltinType_first (fs : FileSet) (pkg : Package) (name : String)
    (pre post : List Candidate) (c : Candidate) (d : Doc)
    (hsplit : pkg.candidates = pre ++ c :: post)
    (hpre : ∀ x ∈ pre, x.yield name fs = .ok none)
    (hc : c.yield name fs = .ok (some d)) :
    findBuiltinType fs pkg name =
      .ok (some { d with Import := "builtin", Pkg := "builtin" }) := by
  rw [findBuiltinType_eq, hsplit, firstYield_skip name fs pre (c :: post) hpre]
  simp [firstYield, hc, stampResult, stamp]

/-- C1 at a unit that declares `x` three times: the record is the one of the
second constant spec, the first that matches. -/
theorem findBuiltinType_first_witness :
    findBuiltinType fileSet twiceDeclared "x" =
      .ok (some
        { Name := "x"
          Import := "builtin"
          Pkg := "builtin"
          Decl := "const x = 1"
          Doc := ""
          Pos := "builtin.go:1:1" }) :=
  findBuiltinType_first fileSet twiceDeclared "x"
    [.valueSpec .CONST none
      (.ValueSpec { Doc := none, Names := [⟨8, "w"⟩], Typ := none,
                    Values := [.BasicLit 12 "0"] })]
    [.valueSpec .CONST none
      (.ValueSpec { Doc := none, Names := [⟨22, "x"⟩], Typ := none,
                    Values := [.BasicLit 26 "2"] }),
     .funcDecl { Doc := none, Recv := none, Name := ⟨35, "x"⟩, Typ := .mk (some []) none }]
    (.valueSpec .CONST none
      (.ValueSpec { Doc := none, Names := [⟨15, "x"⟩], Typ := none,
                    Values := [.BasicLit 19 "1"] }))
    { Name := "x", Import := "", Pkg := "", Decl := "const x = 1", Doc := "",
      Pos := "builtin.go:1:1" }
    rfl
    (by
      intro x hx
      rw [List.mem_singleton] at hx
      subst hx
      rfl)
    rfl

theorem stampResult_eq_none (r : Except Panic (Option Doc)) :
    stampResult r = .ok none ↔ r = .ok none := by
  rcases r with e | _ | doc <;> simp [stampResult]

theorem firstYield_append_none (name : String) (fs : FileSet) (l1 l2 : List Candidate) :
    firstYield name fs (l1 ++ l2) = .ok none ↔
      firstYield name fs l1 = .ok none ∧ firstYield name fs l2 = .ok none := by
  rw [firstYield_append]
  rcases firstYield name fs l1 with e | _ | doc <;> simp

theorem mem_names_iff (name : String) (Names : List Ident) :
    name ∈ Names.map (fun nm => nm.Name) ↔ ∃ nm ∈ Names, nm.Name = name := by
  simp [List.mem_map]

theorem getValueSpec_eq_none (name : String) (v : ValueSpec) (vt : Token)
    (vdoc : Option CommentGroup) (fs : FileSet) :
    getValueSpec name v vt vdoc fs = none ↔ name ∉ v.Names.map (fun nm => nm.Name) := by
  rw [mem_names_iff]
  constructor
  · intro h hex
    obtain ⟨x, hx⟩ := getValueSpec_of_mem name v vt vdoc fs hex
    rw [hx] at h
    exact Option.noConfusion h
  · intro h
    have hf : v.Names.find? (fun nm => name = nm.Name) = none := by
      rw [List.find?_eq_none]
      intro nm hmem
      have hne : ¬ nm.Name = name := fun e => h ⟨nm, hmem, e⟩
      simpa [eq_comm] using hne
    simp [getValueSpec, hf]

theorem valueSpecs_none_iff (name : String) (fs : FileSet) (Tok : Token)
    (gdoc : Option CommentGroup) (specs : List Spec)
    (hwf : specs.all Spec.isValueSpec = true) :
    firstYield name fs (specs.map (.valueSpec Tok gdoc)) = .ok none ↔
      name ∉ specs.flatMap Spec.names := by
  induction specs with
  | nil => simp [firstYield]
  | cons spec rest ih =>
    simp only [List.all_cons, Bool.and_eq_true] at hwf
    cases spec with
    | ValueSpec v =>
      have hv := getValueSpec_eq_none name v Tok gdoc fs
      simp only [List.map_cons, firstYield, Candidate.yield, List.flatMap_cons,
        List.mem_append, not_or, Spec.names]
      cases hg : getValueSpec name v Tok gdoc fs with
      | none =>
        rw [hg] at hv
        simp [ih hwf.2, hv.mp rfl]
      | some doc =>
        rw [hg] at hv
        have hin : ¬ name ∉ v.Names.map (fun nm => nm.Name) := fun hn => by
          have := hv.mpr hn
          exact Option.noConfusion this
        constructor
        · intro h
          exact Except.noConfusion h (fun h2 => Option.noConfusion h2)
        · intro h
          exact absurd h.1 hin
    | ImportSpec s => simp [Spec.isValueSpec] at hwf
    | TypeSpec t => simp [Spec.isValueSpec] at hwf

theorem typeSpecs_none_iff (name : String) (fs : FileSet) (Tok : Token)
    (gdoc : Option CommentGroup) (specs : List Spec)
    (hwf : specs.all Spec.isTypeSpec = true) :
    firstYield name fs (specs.map (.typeSpec Tok gdoc)) = .ok none ↔
      name ∉ specs.flatMap Spec.names := by
  induction specs with
  | nil => simp [firstYield]
  | cons spec rest ih =>
    simp only [List.all_cons, Bool.and_eq_true] at hwf
    cases spec with
    | TypeSpec t =>
      simp only [List.map_cons, firstYield, Candidate.yield, List.flatMap_cons,
        List.mem_append, not_or, Spec.names, List.mem_singleton]
      by_cases hn : name = t.Name.Name
      · simp [getTypeSpec, hn]
      · simp [getTypeSpec, hn, ih hwf.2]
    | ImportSpec s => simp [Spec.isTypeSpec] at hwf
    | ValueSpec v => simp [Spec.isTypeSpec] at hwf

theorem importSpecs_names (specs : List Spec)
    (hwf : specs.all Spec.isImportSpec = true) : specs.flatMap Spec.names = [] := by
  induction specs with
  | nil => simp
  | cons spec rest ih =>
    simp only [List.all_cons, Bool.and_eq_true] at hwf
    cases spec with
    | ImportSpec s => simp [Spec.names, ih hwf.2]
    | ValueSpec v => simp [Spec.isImportSpec] at hwf
    | TypeSpec t => simp [Spec.isImportSpec] at hwf

theorem decl_none_iff (name : String) (fs : FileSet) (decl : Decl)
    (hwf : decl.wellFormed = true) :
    firstYield name fs decl.candidates = .ok none ↔ name ∉ decl.names := by
  cases decl with
  | BadDecl => simp [Decl.candidates, Decl.names, firstYield]
  | FuncDecl f =>
    by_cases hn : f.Name.Name = name
    · simp [Decl.candidates, Decl.names, firstYield, Candidate.yield, getFuncDecl, hn]
    · have hn2 : ¬ name = f.Name.Name := fun e => hn e.symm
      simp [Decl.candidates, Decl.names, firstYield, Candidate.yield, getFuncDecl, hn, hn2]
  | GenDecl d =>
    obtain ⟨cg, Tok, Specs⟩ := d
    simp only [Decl.wellFormed, GenDecl.wellFormed] at hwf
    cases Tok <;> simp only [reduceCtorEq] at hwf
    · simpa [Decl.candidates, Decl.names] using valueSpecs_none_iff name fs .CONST cg Specs hwf
    · simp [Decl.candidates, Decl.names, firstYield, importSpecs_names Specs hwf]
    · simpa [Decl.candidates, Decl.names] using typeSpecs_none_iff name fs .TYPE cg Specs hwf
    · simpa [Decl.candidates, Decl.names] using valueSpecs_none_iff name fs .VAR cg Specs hwf

theorem decls_none_iff (name : String) (fs : FileSet) (decls : List Decl)
    (hwf : decls.all Decl.wellFormed = true) :
    firstYield name fs (decls.flatMap Decl.candidates) = .ok none ↔
      name ∉ decls.flatMap Decl.names := by
  induction decls with
  | nil => simp [firstYield]
  | cons decl rest ih =>
    simp only [List.all_cons, Bool.and_eq_true] at hwf
    simp only [List.flatMap_cons, firstYield_append_none, List.mem_append, not_or,
      decl_none_iff name fs decl hwf.1, ih hwf.2]

theorem files_none_iff (name : String) (fs : FileSet) (files : List File)
    (hwf : files.all (fun f => f.Decls.all Decl.wellFormed) = true) :
    firstYield name fs (files.flatMap (fun f => f.Decls.flatMap Decl.candidates)) = .ok none ↔
      name ∉ files.flatMap (fun f => f.Decls.flatMap Decl.names) := by
  induction files with
  | nil => simp [firstYield]
  | cons f rest ih =>
    simp only [List.all_cons, Bool.and_eq_true] at hwf
    simp only [List.flatMap_cons, firstYield_append_none, List.mem_append, not_or,
      decls_none_iff name fs f.Decls hwf.1, ih hwf.2]

/-- C2: on a unit whose general declarations hold specs of the kind of their
keyword, the resolver returns nil, and does not panic, exactly when the
requested name is none of the names that the constant, variable and type specs
and the function and method declarations of the unit declare. -/
theorem findBuiltinType_nil_iff (fs : FileSet) (pkg : Package) (name : String)
    (hwf : pkg.wellFormed = true) :
    findBuiltinType fs pkg name = .ok none ↔ name ∉ pkg.names := by
  rw [findBuiltinType_eq, stampResult_eq_none]
  exact files_none_iff name fs pkg.Files hwf

/-- C2 at a unit that declares `w` and `x` only, asked for `y`. -/
theorem findBuiltinType_nil_iff_witness :
    twiceDeclared.wellFormed = true
      ∧ "y" ∉ twiceDeclared.names
      ∧ findBuiltinType fileSet twiceDeclared "y" = .ok none :=
  ⟨by decide, by decide,
    (findBuiltinType_nil_iff fileSet twiceDeclared "y" (by decide)).mpr (by decide)⟩

/-! ## Fields and type texts -/

theorem readField_eq (Names : List Ident) (T : Option Expr) :
    readField (.mk Names T) =
      match T with
      | some (.FuncType _) => fieldName Names ++ fieldTyp T
      | _ => joinNameTyp (fieldName Names) (fieldTyp T) := by
  rcases T with _ | e
  · simp [readField, fieldTyp]
  · cases e <;> simp [readField, fieldTyp]

theorem joinNameTyp_empty_typ (name : String) : joinNameTyp name "" = name := by
  by_cases h : name = "" <;> simp [joinNameTyp, h]

theorem joinNameTyp_empty_name (typ : String) : joinNameTyp "" typ = typ := by
  simp [joinNameTyp]

theorem append_ne_empty_left (a b : String) (ha : a ≠ "") : a ++ b ≠ "" := by
  intro h
  have hl := congrArg String.length h
  simp only [String.length_append] at hl
  have h0 : ("").length = 0 := by decide
  have ha0 : a.length ≠ 0 := by
    intro hz
    apply ha
    have : a.data = [] := List.length_eq_zero.mp hz
    exact String.ext this
  omega

theorem readFuncType_ne_empty (ft : FuncType) : readFuncType ft ≠ "" := by
  cases ft with
  | mk Params Results =>
    rw [readFuncType_eq, String.append_assoc, String.append_assoc]
    exact append_ne_empty_left _ _ (by decide)

/-- C11 as stated fails: a named field whose type is a function type with a
non-empty type text does not render as the name, a space and the type text;
the method field `Error() string` has no space. -/
theorem readField_name_space_typ_fails :
    ¬ ∀ (nm : Ident) (T : Expr), nm.Name ≠ "" → fieldTyp (some T) ≠ "" →
        readField (.mk [nm] (some T)) = nm.Name ++ " " ++ fieldTyp (some T) := by
  intro h
  have h1 := h ⟨24, "Error"⟩
    (.FuncType (.mk (some []) (some [.mk [] (some (.Ident ⟨32, "string"⟩))])))
    (by decide) (by decide)
  revert h1
  decide

/-- C11, amended: a field without name and type renders as empty text; a field
with a name and no type, or a type whose text is empty, renders as the name
alone; a field without a name renders as its type text alone; a field with a
name and a type that is not a function type and has a non-empty text renders
as the name, one space and the type text; a function-typed field renders as
the name directly followed by the signature. -/
theorem readField_invariant (ns : List Ident) (nm : Ident) (T : Option Expr) :
    readField (.mk [] none) = ""
      ∧ readField (.mk (ns ++ [nm]) none) = nm.Name
      ∧ (fieldTyp T = "" → readField (.mk (ns ++ [nm]) T) = nm.Name)
      ∧ readField (.mk [] T) = fieldTyp T
      ∧ ((∀ ft, T ≠ some (.FuncType ft)) → nm.Name ≠ "" → fieldTyp T ≠ "" →
          readField (.mk (ns ++ [nm]) T) = nm.Name ++ " " ++ fieldTyp T)
      ∧ (∀ ft, readField (.mk (ns ++ [nm]) (some (.FuncType ft))) =
          nm.Name ++ readFuncType ft) := by
  refine ⟨by decide, ?_, ?_, ?_, ?_, ?_⟩
  · simp [readField_eq, fieldName_append_singleton, joinNameTyp_empty_typ, fieldTyp]
  · intro hT
    rw [readField_eq, fieldName_append_singleton]
    rcases T with _ | e
    · simp [joinNameTyp_empty_typ, fieldTyp]
    · cases e <;> first
        | (exfalso; exact readFuncType_ne_empty _ (by simpa [fieldTyp] using hT))
        | simp only [hT, joinNameTyp_empty_typ]
  · rw [readField_eq]
    rcases T with _ | e
    · simp [joinNameTyp, fieldName, fieldTyp]
    · cases e <;> simp [joinNameTyp, fieldName]
  · intro hfn hname hT
    rw [readField_eq, fieldName_append_singleton]
    rcases T with _ | e
    · simp [joinNameTyp, hname, hT]
    · cases e <;> first
        | (exfalso; exact hfn _ rfl)
        | simp [joinNameTyp, hname, hT]
  · intro ft
    simp [readField_eq, fieldName, fieldTyp]

/-- C11, amended, at the parameter `p []byte` and at a field `s` of struct
type, whose type text is empty. -/
theorem readField_invariant_witness :
    readField (.mk [⟨21, "p"⟩] (some (.ArrayType none (some (.Ident ⟨25, "byte"⟩))))) =
        "p []byte"
      ∧ readField (.mk [⟨21, "s"⟩] (some (.StructType none))) = "s" :=
  ⟨((readField_invariant [] ⟨21, "p"⟩
      (some (.ArrayType none (some (.Ident ⟨25, "byte"⟩))))).2.2.2.2.1
      (by intro ft h; exact Option.noConfusion h (fun h2 => Expr.noConfusion h2))
      (by decide) (by decide)).trans (by decide),
    (readField_invariant [] ⟨21, "s"⟩ (some (.StructType none))).2.2.1 (by decide)⟩

/-- C12: a nameless field renders a Named type as its identifier, a map type
as `map[k]v` with the identifier texts of a Named key and value and empty text
for any other, a pointer to a Named type as `*x`, and a channel of a Named
type with the prefix of its direction. -/
theorem readField_leaf_types (id k v x : Ident) (Key Value : Option Expr) :
    readField (.mk [] (some (.Ident id))) = id.Name
      ∧ readField (.mk [] (some (.MapType Key Value))) =
          "map[" ++ renderNamed Key ++ "]" ++ renderNamed Value
      ∧ readField (.mk [] (some (.MapType (some (.Ident k)) (some (.Ident v))))) =
          "map[" ++ k.Name ++ "]" ++ v.Name
      ∧ readField (.mk [] (some (.StarExpr (some (.Ident x))))) = "*" ++ x.Name
      ∧ readField (.mk [] (some (.ChanType SEND (some (.Ident v))))) = "chan<- " ++ v.Name
      ∧ readField (.mk [] (some (.ChanType RECV (some (.Ident v))))) = "<-chan " ++ v.Name
      ∧ readField (.mk [] (some (.ChanType (SEND ||| RECV) (some (.Ident v))))) =
          "chan " ++ v.Name := by
  have hdir : (SEND ||| RECV) ≠ SEND ∧ (SEND ||| RECV) ≠ RECV ∧ RECV ≠ SEND := by decide
  obtain ⟨h1, h2, h3⟩ := hdir
  refine ⟨?_, ?_, ?_, ?_, ?_, ?_, ?_⟩
  · simp [readField_eq, joinNameTyp_empty_name, fieldName, fieldTyp]
  · rw [readField_eq]
    simp only [fieldName, List.foldl_nil, joinNameTyp_empty_name, fieldTyp]
    rcases Key with _ | ek <;> rcases Value with _ | ev
    · rfl
    · cases ev <;> rfl
    · cases ek <;> rfl
    · cases ek <;> cases ev <;> rfl
  · simp [readField_eq, joinNameTyp_empty_name, fieldName, fieldTyp]
  · simp [readField_eq, joinNameTyp_empty_name, fieldName, fieldTyp]
  · simp [readField_eq, joinNameTyp_empty_name, fieldName, fieldTyp]
  · simp [readField_eq, joinNameTyp_empty_name, fieldName, fieldTyp, h3]
  · simp [readField_eq, joinNameTyp_empty_name, fieldName, fieldTyp, h1, h2]

/-- C13 as stated fails: the type text of the slice of slices `[][]int` is
empty, not `[]`, and the parameter `x [][]int` renders as `x` alone. -/
theorem fieldTyp_slice_fails :
    fieldTyp (some sliceOfSlices) = ""
      ∧ readField (.mk [⟨9, "x"⟩] (some sliceOfSlices)) = "x"
      ∧ ¬ ∀ (Len Elt : Option Expr),
          fieldTyp (some (.ArrayType Len Elt)) = "[]" ++ renderNamed Elt := by
  refine ⟨by decide, by decide, ?_⟩
  intro h
  have h1 := h none (some (.ArrayType none (some (.Ident ⟨13, "int"⟩))))
  revert h1
  decide

/-- C13, amended: the type text of a slice whose element is Named is `[]`
followed by the identifier, that of a variadic type whose element is Named is
`...` followed by the identifier, and a slice or variadic type whose element
is absent or not Named has empty type text, so that the parameter `x [][]int`
renders as `x` alone. -/
theorem fieldTyp_slice_variadic (Len Elt : Option Expr) (id : Ident) :
    fieldTyp (some (.ArrayType Len (some (.Ident id)))) = "[]" ++ id.Name
      ∧ fieldTyp (some (.Ellipsis (some (.Ident id)))) = "..." ++ id.Name
      ∧ (isNamed Elt = false →
          fieldTyp (some (.ArrayType Len Elt)) = "" ∧ fieldTyp (some (.Ellipsis Elt)) = "")
      ∧ readField (.mk [⟨9, "x"⟩] (some sliceOfSlices)) = "x" := by
  refine ⟨by simp [fieldTyp], by simp [fieldTyp], ?_, by decide⟩
  intro hE
  rcases Elt with _ | e
  · simp [fieldTyp]
  · cases e <;> first
      | (exfalso; simp [isNamed] at hE; done)
      | simp [fieldTyp]

/-- C13, amended, at the slice `[]Type`, the variadic `...Type` and the slice
of maps `[]map[string]int`. -/
theorem fieldTyp_slice_variadic_witness :
    fieldTyp (some (.ArrayType none (some (.Ident ⟨22, "Type"⟩)))) = "[]Type"
      ∧ fieldTyp (some (.Ellipsis (some (.Ident ⟨22, "Type"⟩)))) = "...Type"
      ∧ fieldTyp (some (.ArrayType none (some (.MapType (some (.Ident ⟨5, "string"⟩))
          (some (.Ident ⟨12, "int"⟩)))))) = "" :=
  ⟨(fieldTyp_slice_variadic none none ⟨22, "Type"⟩).1.trans (by decide),
    (fieldTyp_slice_variadic none none ⟨22, "Type"⟩).2.1.trans (by decide),
    ((fieldTyp_slice_variadic none
      (some (.MapType (some (.Ident ⟨5, "string"⟩)) (some (.Ident ⟨12, "int"⟩))))
      ⟨22, "Type"⟩).2.2.1 (by decide)).1⟩

/-- C16: at the failing input `c = 1 << n` the initializer, a binary expression
whose right operand is an identifier, contributes the value `1 << 1` and the
declaration text is `const c = 1 << 1`; a basic literal contributes its text,
and an identifier, a call, a unary or a parenthesised expression contributes
nothing. -/
theorem readValue_nonliteral_operand (p : Nat) (lit : String) (id : Ident) (X : Expr)
    (Args : List Expr) (op : Token) :
    readValue (.BinaryExpr (.BasicLit 11 "1") .SHL (.Ident ⟨16, "n"⟩)) = ["1 << 1"]
      ∧ Option.map Doc.Decl (getValueSpec "c" shiftSpec .CONST none fileSet) =
          some "const c = 1 << 1"
      ∧ readValue (.BasicLit p lit) = [lit]
      ∧ readValue (.Ident id) = []
      ∧ readValue (.CallExpr X Args) = []
      ∧ readValue (.UnaryExpr op X) = []
      ∧ readValue (.ParenExpr X) = [] := by
  refine ⟨by decide, by decide, ?_, ?_, ?_, ?_, ?_⟩ <;> simp [readValue]

/-- C17: a binary-expression initializer whose left operand is a basic literal
with text `L` is rendered as `L op L`, and this is the text that stands in the
declaration text of `getValueSpec`: a spec with this one initializer and no
explicit type gives `const <name> = L op L` (`var` likewise), and among other
initializers the value `L op L` stands at its place in the joined list.  The
right operand is not read, so two specs that differ only in a right operand
give the same record, and `const k = 1 << 3` resolves to `const k = 1 << 1`. -/
theorem readValue_same_operand (p : Nat) (L : String) (op : Token) (X Y Y2 : Expr)
    (name : String) (cg vdoc : Option CommentGroup) (Names : List Ident)
    (T : Option Expr) (pre post : List Expr) (vt : Token) (fs : FileSet)
    (nm : Ident) (ns1 ns2 : List Ident) :
    readValue (.BinaryExpr (.BasicLit p L) op Y) = [L ++ " " ++ op.String ++ " " ++ L]
      ∧ readValue (.BinaryExpr X op Y) = readValue (.BinaryExpr X op Y2)
      ∧ getValueSpec name ⟨cg, Names, T, pre ++ .BinaryExpr X op Y :: post⟩ vt vdoc fs =
          getValueSpec name ⟨cg, Names, T, pre ++ .BinaryExpr X op Y2 :: post⟩ vt vdoc fs
      ∧ readValue (.BinaryExpr (.BasicLit 11 "1") .SHL (.BasicLit 16 "3")) = ["1 << 1"]
      ∧ Option.map Doc.Decl
          (getValueSpec nm.Name ⟨cg, ns1 ++ nm :: ns2, none, [.BinaryExpr (.BasicLit p L) op Y]⟩
            .CONST vdoc fs) =
          some ("const " ++ nm.Name ++ " = " ++ L ++ " " ++ op.String ++ " " ++ L)
      ∧ Option.map Doc.Decl
          (getValueSpec nm.Name ⟨cg, ns1 ++ nm :: ns2, none, [.BinaryExpr (.BasicLit p L) op Y]⟩
            .VAR vdoc fs) =
          some ("var " ++ nm.Name ++ " = " ++ L ++ " " ++ op.String ++ " " ++ L)
      ∧ Option.map Doc.Decl
          (getValueSpec nm.Name
            ⟨cg, ns1 ++ nm :: ns2, T, pre ++ .BinaryExpr (.BasicLit p L) op Y :: post⟩
            vt vdoc fs) =
          Option.map (fun d => d.Decl ++ " = " ++ ", ".intercalate
              ((pre.map readValue).flatten ++ [L ++ " " ++ op.String ++ " " ++ L] ++
                (post.map readValue).flatten))
            (getValueSpec nm.Name ⟨cg, ns1 ++ nm :: ns2, T, []⟩ vt vdoc fs)
      ∧ Option.map Doc.Decl (getValueSpec "k" shiftLitSpec .CONST none fileSet) =
          some "const k = 1 << 1"
      ∧ findBuiltinType fileSet
          ⟨[⟨[.GenDecl ⟨none, .CONST, [.ValueSpec shiftLitSpec]⟩]⟩]⟩ "k" =
          .ok (some
            { Name := "k"
              Import := "builtin"
              Pkg := "builtin"
              Decl := "const k = 1 << 1"
              Doc := ""
              Pos := "builtin.go:1:1" }) := by
  have hY : readValue (.BinaryExpr X op Y) = readValue (.BinaryExpr X op Y2) := by
    simp [readValue]
  have hL : readValue (.BinaryExpr (.BasicLit p L) op Y) =
      [L ++ " " ++ op.String ++ " " ++ L] := by
    simp [readValue]
  have hmem : ∃ x ∈ ns1 ++ nm :: ns2, x.Name = nm.Name := ⟨nm, by simp, rfl⟩
  have hconst : Token.String .CONST = "const" := rfl
  have hvar : Token.String .VAR = "var" := rfl
  have hone : ∀ a : String, ", ".intercalate [a] = a := fun _ => rfl
  refine ⟨hL, hY, ?_, by decide, ?_, ?_, ?_, by decide, rfl⟩
  · have hv : readValues (pre ++ .BinaryExpr X op Y :: post) =
        readValues (pre ++ .BinaryExpr X op Y2 :: post) := by
      simp [readValues_eq_flatten, hY]
    simp [getValueSpec, hv]
  · obtain ⟨x, hx⟩ := getValueSpec_of_mem nm.Name
      ⟨cg, ns1 ++ nm :: ns2, none, [.BinaryExpr (.BasicLit p L) op Y]⟩ .CONST vdoc fs hmem
    rw [hx]
    simp [valueDecl, valueTyp, readValues, hL, hconst, hone, ← String.append_assoc]
  · obtain ⟨x, hx⟩ := getValueSpec_of_mem nm.Name
      ⟨cg, ns1 ++ nm :: ns2, none, [.BinaryExpr (.BasicLit p L) op Y]⟩ .VAR vdoc fs hmem
    rw [hx]
    simp [valueDecl, valueTyp, readValues, hL, hvar, hone, ← String.append_assoc]
  · obtain ⟨x, hx⟩ := getValueSpec_of_mem nm.Name
      ⟨cg, ns1 ++ nm :: ns2, T, pre ++ .BinaryExpr (.BasicLit p L) op Y :: post⟩
      vt vdoc fs hmem
    obtain ⟨y, hy⟩ := getValueSpec_of_mem nm.Name
      ⟨cg, ns1 ++ nm :: ns2, T, []⟩ vt vdoc fs hmem
    rw [hx, hy]
    simp [valueDecl, readValues, readValues_eq_flatten, hL]

/-! ## Names and result fields -/

/-- C18: a field that binds several names renders as the same field with only
its last name; `dst, src []Type` renders as `src []Type`, and the builtin
`copy` resolves to the declaration text `func copy(src []Type) int`. -/
theorem readField_last_name (ns : List Ident) (nm : Ident) (T : Option Expr) :
    readField (.mk (ns ++ [nm]) T) = readField (.mk [nm] T)
      ∧ readField dstSrc = "src []Type"
      ∧ Option.map Doc.Decl (getFuncDecl "copy" copyDecl fileSet) =
          some "func copy(src []Type) int"
      ∧ findBuiltinType fileSet ⟨[⟨[.FuncDecl copyDecl]⟩]⟩ "copy" =
          .ok (some
            { Name := "copy"
              Import := "builtin"
              Pkg := "builtin"
              Decl := "func copy(src []Type) int"
              Doc := ""
              Pos := "builtin.go:1:1" }) := by
  refine ⟨?_, by decide, by decide, rfl⟩
  have h1 : fieldName [nm] = nm.Name := by simp [fieldName]
  rw [readField_eq, readField_eq, fieldName_append_singleton, h1]

/-- C19: the result form follows the number of result fields: one result field
is appended after a space without parentheses, however many names it binds,
so the results `(a, b int)` render as ` b int`; two or more result fields are
parenthesised, and no result field gives no result text. -/
theorem readFuncType_result_fields (Params : Option (List Field)) (r r2 : Field)
    (rest : List Field) :
    readFuncType (.mk Params (some [r])) =
        "(" ++ ", ".intercalate ((Params.getD []).map readField) ++ ") " ++ readField r
      ∧ readFuncType (.mk Params (some (r :: r2 :: rest))) =
        "(" ++ ", ".intercalate ((Params.getD []).map readField) ++ ")" ++
          " (" ++ ", ".intercalate ((r :: r2 :: rest).map readField) ++ ")"
      ∧ readFuncType (.mk Params (some [])) =
        "(" ++ ", ".intercalate ((Params.getD []).map readField) ++ ")"
      ∧ readFuncType (.mk Params none) =
        "(" ++ ", ".intercalate ((Params.getD []).map readField) ++ ")"
      ∧ readFuncType (.mk (some [])
          (some [.mk [⟨10, "a"⟩, ⟨13, "b"⟩] (some (.Ident ⟨15, "int"⟩))])) = "() b int" := by
  refine ⟨?_, ?_, ?_, ?_, by decide⟩
  · rw [readFuncType_eq]
    have hlit : (")" ++ " " : String) = ") " := by decide
    simp only [fieldTexts, List.map_cons, List.map_nil, Option.getD_some]
    rw [← hlit]
    simp only [String.append_assoc]
  · rw [readFuncType_eq]
    simp [fieldTexts, ← String.append_assoc]
  · rw [readFuncType_eq]
    simp [fieldTexts]
  · rw [readFuncType_eq]
    simp [fieldTexts]

end Gogetdoc
